import Mathlib

/-!
Verification of the watermark compositing core of `src/watermark.py`
(`paint_shadowed_text`, lines 25-64, and `add_watermark_to_image`,
lines 67-136) against its natural-language specification.

The embedding models:
  * Pillow RGBA image buffers as rectangular grids of 8-bit pixels
    (`Pix`, `Buf`);
  * `ImageDraw.text` on an RGBA image (Pillow draws with `blend = 0`:
    each channel, alpha included, is interpolated between the existing
    pixel and the ink by the glyph coverage mask, using Pillow's
    `MULDIV255` integer arithmetic);
  * `Image.alpha_composite` (Pillow's `AlphaComposite.c`: an exact
    copy of the destination where the source alpha is 0, and the
    documented fixed-point "over" arithmetic otherwise);
  * Python's `range`, `int()` truncation, floor division `//`, and
    banker's `round()`;
  * the font and the resampling filters (glyph coverage masks,
    Gaussian blur, the pixel sampler behind `Image.rotate`) as an
    explicit environment `Env` of caller-supplied functions, since the
    spec treats the font/imaging facility as an external collaborator.

The source buffer is threaded through `add_watermark_to_image`
explicitly: the model returns the pair (source buffer as it stands
after the call, result), so frame effects are visible in the type.
-/

/-- An 8-bit RGBA pixel, channels in 0..255. -/
structure Pix where
  r : ℕ
  g : ℕ
  b : ℕ
  a : ℕ
deriving Repr, DecidableEq

/-- The fully transparent pixel `(0, 0, 0, 0)`. -/
def Pix.clear : Pix := ⟨0, 0, 0, 0⟩

/-- An RGBA image buffer: a width, a height, and the pixel rows. -/
structure Buf where
  width : ℕ
  height : ℕ
  rows : List (List Pix)
deriving Repr, DecidableEq

/-- Model of `Image.new("RGBA", (w, h), (0, 0, 0, 0))`: a w×h buffer of
fully transparent pixels. -/
def newBuf (w h : ℕ) : Buf :=
  ⟨w, h, List.replicate h (List.replicate w Pix.clear)⟩

/-- Pixel lookup at integer coordinates; out-of-bounds coordinates read
as fully transparent (content outside a layer does not exist). -/
def Buf.get (b : Buf) (i j : ℤ) : Pix :=
  if 0 ≤ i ∧ 0 ≤ j then (b.rows.getD j.toNat []).getD i.toNat Pix.clear
  else Pix.clear

/-- Rewrite one pixel row, passing each pixel's x-coordinate (starting
from `i`) to the update function. -/
def paintRow (f : ℤ → Pix → Pix) : ℤ → List Pix → List Pix
  | _, [] => []
  | i, p :: ps => f i p :: paintRow f (i + 1) ps

/-- Rewrite a grid of pixel rows, passing each pixel's (x, y)
coordinates to the update function; `j` is the y of the first row. -/
def paintGrid (f : ℤ → ℤ → Pix → Pix) : ℤ → List (List Pix) → List (List Pix)
  | _, [] => []
  | j, row :: rest => paintRow (fun i p => f i j p) 0 row :: paintGrid f (j + 1) rest

/-- In-place pixel rewrite of a buffer (dimensions unchanged). -/
def Buf.mapIdx (b : Buf) (f : ℤ → ℤ → Pix → Pix) : Buf :=
  ⟨b.width, b.height, paintGrid f 0 b.rows⟩

/-- Build a w×h buffer from a pixel-valued function. -/
def Buf.ofFn (w h : ℕ) (f : ℤ → ℤ → Pix) : Buf :=
  ⟨w, h, (List.range h).map (fun (j : ℕ) => (List.range w).map (fun (i : ℕ) => f (i : ℤ) (j : ℤ)))⟩

/-- Pillow's `MULDIV255(a, b)` fixed-point operation:
`SHIFTFORDIV255(a*b + 128)` where `SHIFTFORDIV255(x) = ((x >> 8) + x) >> 8`,
an exact `a*b/255` with rounding for 8-bit operands. -/
def muldiv255 (a b : ℕ) : ℕ :=
  ((a * b + 128) / 256 + (a * b + 128)) / 256

/-- Pillow's `BLEND(mask, dst, ink)` used by `draw_bitmap` when drawing
onto an RGBA image (draw blend mode 0): interpolate each channel by the
glyph coverage mask `m ∈ 0..255`. -/
def maskBlend (m dst ink : ℕ) : ℕ :=
  muldiv255 dst (255 - m) + muldiv255 ink m

/-- One output pixel of Pillow's `Image.alpha_composite` ("over"
blending, `AlphaComposite.c`): the destination is returned unchanged
when the source alpha is 0, otherwise Pillow's fixed-point arithmetic
with `PRECISION_BITS = 7` is applied. -/
def alphaCompPix (dst src : Pix) : Pix :=
  if src.a = 0 then dst
  else
    let blend := dst.a * (255 - src.a)
    let outa255 := src.a * 255 + blend
    let coef1 := src.a * 255 * 255 * 128 / outa255
    let coef2 := 255 * 128 - coef1
    let ch := fun (s d : ℕ) =>
      ((s * coef1 + d * coef2 + 16384) / 256 + (s * coef1 + d * coef2 + 16384)) / 256 / 128
    ⟨ch src.r dst.r, ch src.g dst.g, ch src.b dst.b,
      ((outa255 + 128) / 256 + (outa255 + 128)) / 256⟩

/-- Alpha-composite `src` over `base` pixel by pixel (the in-place
`base.alpha_composite(src)`; in the program both buffers always have
equal dimensions). -/
def alphaCompositeOver (base src : Buf) : Buf :=
  base.mapIdx (fun i j p => alphaCompPix p (src.get i j))

/-- Python-level errors the modelled code can raise. -/
inductive PyErr where
  | valueErrorZeroStep
  | valueErrorSizeMismatch
  | valueErrorUnknownMode (mode : String)
deriving Repr, DecidableEq

/-- The module-level `Image.alpha_composite(im1, im2)`: Pillow raises
`ValueError` when the two images differ in size, and otherwise returns
a newly allocated "over" composite. -/
def imageAlphaComposite (im1 im2 : Buf) : Except PyErr Buf :=
  if im1.width = im2.width ∧ im1.height = im2.height then
    Except.ok (alphaCompositeOver im1 im2)
  else Except.error PyErr.valueErrorSizeMismatch

/-- Model of `img.convert("RGBA")` for an already-RGBA input buffer:
Pillow returns an equal copy; on values the copy is the same buffer. -/
def convertRGBA (b : Buf) : Buf := b

/-- The external font and imaging facilities (collaborators per the
spec): text metrics (`textbbox((0,0), text, font)[2:]`), the glyph
coverage mask of a text drawn with a given stroke width (coverage at a
point relative to the draw position), the pixel sampler behind
`ImageFilter.GaussianBlur`, and the pixel sampler behind
`Image.rotate(45, expand=False)`. -/
structure Env where
  textbbox_rb : String → ℤ × ℤ
  mask : String → ℕ → ℤ → ℤ → ℕ
  blurSample : ℕ → Buf → ℤ → ℤ → Pix
  rotSample : Buf → ℤ → ℤ → Pix

/-- Model of `ImageDraw.Draw(b).text(pos, text, fill=ink,
stroke_width=sw, stroke_fill=ink)` on an RGBA buffer: every pixel is
mask-blended with the ink by the glyph coverage at that pixel. -/
def drawText (env : Env) (b : Buf) (pos : ℤ × ℤ) (text : String) (ink : Pix)
    (sw : ℕ) : Buf :=
  b.mapIdx (fun i j p =>
    let m := env.mask text sw (i - pos.1) (j - pos.2)
    ⟨maskBlend m p.r ink.r, maskBlend m p.g ink.g, maskBlend m p.b ink.b,
      maskBlend m p.a ink.a⟩)

/-- Model of `layer.filter(ImageFilter.GaussianBlur(radius))`: a
same-sized buffer resampled by the collaborator's blur kernel. -/
def gaussianBlur (env : Env) (radius : ℕ) (b : Buf) : Buf :=
  Buf.ofFn b.width b.height (env.blurSample radius b)

/-- Model of `layer.rotate(45, expand=False)`: a same-sized buffer
resampled by the collaborator's rotation sampler. -/
def rotate45 (env : Env) (b : Buf) : Buf :=
  Buf.ofFn b.width b.height (env.rotSample b)

/-- Python's `int(n * q)` for an integer `n` and a float factor `q`,
computed on the exact rational value: truncation toward zero of
`n * q.num / q.den`. -/
def pyIntMul (n : ℤ) (q : ℚ) : ℤ := Int.tdiv (n * q.num) q.den

/-- Python's `round(n * q)` for an integer `n` and a float factor `q`,
computed on the exact rational value: round half to even (banker's
rounding) of `n * q.num / q.den`. -/
def pyRoundMul (n : ℤ) (q : ℚ) : ℤ :=
  let a := n * q.num
  let b : ℤ := q.den
  let f := Int.fdiv a b
  let r2 := 2 * (a - f * b)
  if r2 < b then f
  else if b < r2 then f + 1
  else if f % 2 = 0 then f else f + 1

/-- Number of elements of Python's `range(start, stop, step)` for a
non-zero step: `max 0 ⌈(stop - start) / step⌉`. -/
def pyRangeLen (start stop step : ℤ) : ℕ :=
  if 0 < step then ((stop - start + step - 1) / step).toNat
  else if step < 0 then ((start - stop + (-step) - 1) / (-step)).toNat
  else 0

/-- The element list of Python's `range(start, stop, step)` for a
non-zero step. -/
def pyRangeList (start stop step : ℤ) : List ℤ :=
  (List.range (pyRangeLen start stop step)).map (fun (i : ℕ) => start + step * (i : ℤ))

/-- Python's `range(start, stop, step)`: raises
`ValueError: range() arg 3 must not be zero` when the step is zero,
otherwise yields its elements. -/
def pyRange (start stop step : ℤ) : Except PyErr (List ℤ) :=
  if step = 0 then Except.error PyErr.valueErrorZeroStep
  else Except.ok (pyRangeList start stop step)

/-- The watermark fill color built at line 87:
`fill = (255, 255, 255, opacity)`. -/
def fillOf (opacity : ℕ) : Pix := ⟨255, 255, 255, opacity⟩

/-- The shadow color built at line 43:
`shadow_fill = (0, 0, 0, shadow_alpha)`. -/
def shadowFillOf (shadow_alpha : ℕ) : Pix := ⟨0, 0, 0, shadow_alpha⟩

/-- `paint_shadowed_text` (lines 25-64): when `shadow_alpha` is truthy
and the shadow offset is not `(0, 0)`, draw the text with the shadow
fill on a fresh transparent layer at `pos + shadow_offset`, optionally
blur it, and alpha-composite it onto the base; then draw the text at
`pos` with the fill color (stroke in the same color). -/
def paint_shadowed_text (env : Env) (base : Buf) (pos : ℤ × ℤ) (text : String)
    (fill : Pix) (stroke_width : ℕ) (shadow_offset : ℤ × ℤ)
    (shadow_alpha : ℕ) (shadow_blur : ℕ) : Buf :=
  let base1 :=
    if shadow_alpha ≠ 0 ∧ shadow_offset ≠ (0, 0) then
      let shadow_layer := newBuf base.width base.height
      let shadow_layer :=
        drawText env shadow_layer
          (pos.1 + shadow_offset.1, pos.2 + shadow_offset.2) text
          (shadowFillOf shadow_alpha) stroke_width
      let shadow_layer :=
        if 0 < shadow_blur then gaussianBlur env shadow_blur shadow_layer
        else shadow_layer
      alphaCompositeOver base shadow_layer
    else base
  drawText env base1 pos text fill stroke_width

/-- The bottom-right anchor of line 103:
`(w - tw - margin, h - th - margin)`. -/
def bottomRightAnchor (w h tw th margin : ℤ) : ℤ × ℤ :=
  (w - tw - margin, h - th - margin)

/-- The overlay construction of `add_watermark_to_image` (lines 83-134):
measure the text, dispatch on the placement mode, and draw every glyph
instance onto a transparent overlay sized like the image (the
diagonal-tile mode draws onto a separate same-sized working layer,
rotates it by 45° without resizing, and composites it onto the
overlay); an unknown mode raises `ValueError(f"unknown mode: {mode}")`. -/
def wmOverlay (env : Env) (img : Buf) (text : String) (mode : String)
    (opacity : ℕ) (margin : ℤ) (stroke_width : ℕ) (shadow_offset : ℤ × ℤ)
    (shadow_alpha : ℕ) (shadow_blur : ℕ) (tile_step : ℚ × ℚ)
    (diag_step : ℚ) : Except PyErr Buf :=
  let w : ℤ := img.width
  let h : ℤ := img.height
  let overlay := newBuf img.width img.height
  let tw := (env.textbbox_rb text).1
  let th := (env.textbbox_rb text).2
  let fill := fillOf opacity
  let add_at := fun (ov : Buf) (x y : ℤ) =>
    paint_shadowed_text env ov (x, y) text fill stroke_width shadow_offset
      shadow_alpha shadow_blur
  if mode = "bottom-right" then
    Except.ok (add_at overlay (bottomRightAnchor w h tw th margin).1
      (bottomRightAnchor w h tw th margin).2)
  else if mode = "center" then
    Except.ok (add_at overlay (Int.fdiv (w - tw) 2) (Int.fdiv (h - th) 2))
  else if mode = "tile" then
    let step_x := pyIntMul (tw + margin) tile_step.1
    let step_y := pyIntMul (th + margin) tile_step.2
    do
      let ys ← pyRange 0 h step_y
      ys.foldlM (fun ov yy => do
        let xs ← pyRange 0 w step_x
        pure (xs.foldl (fun ov2 xx => add_at ov2 xx yy) ov)) overlay
  else if mode = "diagonal-tile" then
    let tile_layer := newBuf img.width img.height
    let step := pyIntMul (max tw th) diag_step
    do
      let ys ← pyRange (-h) (h * 2) step
      let tl ← ys.foldlM (fun tl yy => do
        let xs ← pyRange (-w) (w * 2) step
        pure (xs.foldl (fun tl2 xx =>
          paint_shadowed_text env tl2 (xx, yy) text fill stroke_width
            shadow_offset shadow_alpha shadow_blur) tl)) tile_layer
      imageAlphaComposite overlay (rotate45 env tl)
  else Except.error (PyErr.valueErrorUnknownMode mode)

/-- `add_watermark_to_image` (lines 67-136): build the overlay, then
`return Image.alpha_composite(img.convert("RGBA"), overlay)` (line
136).  The returned pair is (the caller's source buffer as it stands
after the call, the newly produced result). -/
def add_watermark_to_image (env : Env) (img : Buf) (text : String)
    (mode : String) (opacity : ℕ) (margin : ℤ) (stroke_width : ℕ)
    (shadow_offset : ℤ × ℤ) (shadow_alpha : ℕ) (shadow_blur : ℕ)
    (tile_step : ℚ × ℚ) (diag_step : ℚ) : Except PyErr (Buf × Buf) := do
  let overlay ← wmOverlay env img text mode opacity margin stroke_width
    shadow_offset shadow_alpha shadow_blur tile_step diag_step
  let out ← imageAlphaComposite (convertRGBA img) overlay
  pure (img, out)

/-- Anchor list of the tile branch (lines 108-113), as generated by the
two nested `range` loops: steps `int((tw + margin) * tile_step[0])` and
`int((th + margin) * tile_step[1])`, outer rows over `range(0, h,
step_y)`, inner columns over `range(0, w, step_x)` (re-evaluated per
row, as in the source). -/
def tileAnchors (w h tw th margin : ℤ) (tsx tsy : ℚ) :
    Except PyErr (List (ℤ × ℤ)) := do
  let step_x := pyIntMul (tw + margin) tsx
  let step_y := pyIntMul (th + margin) tsy
  let ys ← pyRange 0 h step_y
  ys.foldlM (fun acc yy => do
    let xs ← pyRange 0 w step_x
    pure (acc ++ xs.map (fun xx => (xx, yy)))) []

/-- Modelled from the spec: the tile anchor grid as the spec's words
describe it, with horizontal step `round((tw + margin) * tileStepX)`
and vertical step `round((th + margin) * tileStepY)` (Python `round`,
half to even) instead of the source's `int(...)` truncation. -/
def specTileAnchors (w h tw th margin : ℤ) (tsx tsy : ℚ) :
    Except PyErr (List (ℤ × ℤ)) := do
  let step_x := pyRoundMul (tw + margin) tsx
  let step_y := pyRoundMul (th + margin) tsy
  let ys ← pyRange 0 h step_y
  ys.foldlM (fun acc yy => do
    let xs ← pyRange 0 w step_x
    pure (acc ++ xs.map (fun xx => (xx, yy)))) []

/-- Anchor list of the diagonal-tile branch (lines 117-119): step
`int(max(tw, th) * diag_step)`, rows over `range(-h, h*2, step)`,
columns over `range(-w, w*2, step)`. -/
def diagAnchors (w h tw th : ℤ) (diag_step : ℚ) :
    Except PyErr (List (ℤ × ℤ)) := do
  let step := pyIntMul (max tw th) diag_step
  let ys ← pyRange (-h) (h * 2) step
  ys.foldlM (fun acc yy => do
    let xs ← pyRange (-w) (w * 2) step
    pure (acc ++ xs.map (fun xx => (xx, yy)))) []

/-- The source point sampled by `rotate(45, expand=False)` at output
point `q` of a w×h layer: the canvas is not resized, the content is
rotated about the layer center, so the output at `q` samples the
source at `center + R(-45°)(q - center)`, with rotation coefficient
`cos 45° = sin 45° = √2 / 2`. -/
def rot45SamplesAt (w h : ℝ) (q p : ℝ × ℝ) : Prop :=
  p.1 = w / 2 + Real.sqrt 2 / 2 * ((q.1 - w / 2) + (q.2 - h / 2)) ∧
    p.2 = h / 2 + Real.sqrt 2 / 2 * (-(q.1 - w / 2) + (q.2 - h / 2))

/-- Output point `q` of the rotated layer carries layer content only
when its sampling point lies inside the w×h source layer; otherwise
`rotate` fills it with transparent black. -/
def rot45Covered (w h : ℝ) (q : ℝ × ℝ) : Prop :=
  ∃ p : ℝ × ℝ, rot45SamplesAt w h q p ∧
    0 ≤ p.1 ∧ p.1 ≤ w ∧ 0 ≤ p.2 ∧ p.2 ≤ h

deriving instance DecidableEq for Except

/-- A concrete collaborator environment for evaluating the model on
closed inputs: a font whose measured text box is empty and whose glyph
mask is everywhere 0, and resampling collaborators that return
transparent pixels. -/
def envZero : Env where
  textbbox_rb := fun _ => (0, 0)
  mask := fun _ _ _ _ => 0
  blurSample := fun _ _ _ _ => Pix.clear
  rotSample := fun _ _ _ => Pix.clear

/-- A concrete collaborator environment whose measured text box is
5×3 pixels (mask still empty, so drawing changes nothing). -/
def envFive : Env where
  textbbox_rb := fun _ => (5, 3)
  mask := fun _ _ _ _ => 0
  blurSample := fun _ _ _ _ => Pix.clear
  rotSample := fun _ _ _ => Pix.clear

/-- A concrete 2×2 opaque source image used for closed evaluations. -/
def img2 : Buf :=
  ⟨2, 2, [[⟨10, 20, 30, 255⟩, ⟨10, 20, 30, 255⟩],
          [⟨10, 20, 30, 255⟩, ⟨10, 20, 30, 255⟩]]⟩

/-- A buffer is alpha-blank when every pixel read yields alpha 0 (a
fully transparent layer). -/
def Buf.alphaZero (b : Buf) : Prop := ∀ i j : ℤ, (b.get i j).a = 0

lemma muldiv255_zero_left (b : ℕ) : muldiv255 0 b = 0 := by
  simp [muldiv255]

lemma maskBlend_zero (m : ℕ) : maskBlend m 0 0 = 0 := by
  simp [maskBlend, muldiv255]

lemma alphaCompPix_src_clear (p s : Pix) (h : s.a = 0) : alphaCompPix p s = p := by
  simp [alphaCompPix, h]

lemma paintRow_id (f : ℤ → Pix → Pix) (hf : ∀ i p, f i p = p) :
    ∀ (i : ℤ) (l : List Pix), paintRow f i l = l := by
  intro i l
  induction l generalizing i with
  | nil => rfl
  | cons p ps ih => simp [paintRow, hf, ih]

lemma paintGrid_id (f : ℤ → ℤ → Pix → Pix) (hf : ∀ i j p, f i j p = p) :
    ∀ (j : ℤ) (rows : List (List Pix)), paintGrid f j rows = rows := by
  intro j rows
  induction rows generalizing j with
  | nil => rfl
  | cons r rest ih => simp [paintGrid, paintRow_id _ (fun i p => hf i j p), ih]

lemma Buf.mapIdx_id (b : Buf) (f : ℤ → ℤ → Pix → Pix)
    (hf : ∀ i j p, f i j p = p) : b.mapIdx f = b := by
  cases b with
  | mk w h rows => simp [Buf.mapIdx, paintGrid_id f hf]

lemma paintRow_getD (f : ℤ → Pix → Pix) :
    ∀ (row : List Pix) (i0 : ℤ) (k : ℕ),
      (paintRow f i0 row).getD k Pix.clear =
        if k < row.length then f (i0 + k) (row.getD k Pix.clear) else Pix.clear := by
  intro row
  induction row with
  | nil => intro i0 k; simp [paintRow]
  | cons p ps ih =>
    intro i0 k
    cases k with
    | zero => simp [paintRow]
    | succ k =>
      have := ih (i0 + 1) k
      simp only [paintRow, List.getD_cons_succ, List.length_cons, this]
      have harith : i0 + 1 + (k : ℤ) = i0 + ((k : ℕ) + 1 : ℕ) := by push_cast; ring
      rw [harith]
      simp [Nat.succ_lt_succ_iff]

lemma paintGrid_getD (f : ℤ → ℤ → Pix → Pix) :
    ∀ (rows : List (List Pix)) (j0 : ℤ) (k : ℕ),
      (paintGrid f j0 rows).getD k [] =
        paintRow (fun i p => f i (j0 + k) p) 0 (rows.getD k []) := by
  intro rows
  induction rows with
  | nil => intro j0 k; simp [paintGrid, paintRow]
  | cons r rest ih =>
    intro j0 k
    cases k with
    | zero => simp [paintGrid]
    | succ k =>
      have := ih (j0 + 1) k
      simp only [paintGrid, List.getD_cons_succ, this]
      have harith : j0 + 1 + (k : ℤ) = j0 + ((k : ℕ) + 1 : ℕ) := by push_cast; ring
      rw [harith]

lemma Buf.get_mapIdx (b : Buf) (f : ℤ → ℤ → Pix → Pix) (i j : ℤ) :
    (b.mapIdx f).get i j = f i j (b.get i j) ∨ (b.mapIdx f).get i j = Pix.clear := by
  by_cases hij : 0 ≤ i ∧ 0 ≤ j
  · rw [Buf.mapIdx]
    show (Buf.get ⟨b.width, b.height, paintGrid f 0 b.rows⟩ i j) = _ ∨ _
    rw [Buf.get, if_pos hij, paintGrid_getD, paintRow_getD, Buf.get, if_pos hij]
    by_cases hk : i.toNat < (b.rows.getD j.toNat []).length
    · left
      rw [if_pos hk]
      rw [zero_add, zero_add, Int.toNat_of_nonneg hij.1, Int.toNat_of_nonneg hij.2]
    · right
      rw [if_neg hk]
  · rw [Buf.mapIdx]
    right
    show (Buf.get ⟨b.width, b.height, paintGrid f 0 b.rows⟩ i j) = _
    rw [Buf.get, if_neg hij]

lemma Buf.mapIdx_alphaZero (b : Buf) (f : ℤ → ℤ → Pix → Pix)
    (hb : b.alphaZero) (hf : ∀ i j p, p.a = 0 → (f i j p).a = 0) :
    (b.mapIdx f).alphaZero := by
  intro i j
  rcases Buf.get_mapIdx b f i j with h | h
  · rw [h]; exact hf i j _ (hb i j)
  · rw [h]; rfl

lemma getD_a_zero (l : List Pix) (hl : ∀ p ∈ l, p.a = 0) (k : ℕ) :
    (l.getD k Pix.clear).a = 0 := by
  rw [List.getD_eq_getElem?_getD]
  cases hx : l[k]? with
  | none => rfl
  | some p => exact hl p (List.getElem?_mem hx)

lemma rowsGetD_a_zero (rows : List (List Pix))
    (hrows : ∀ r ∈ rows, ∀ p ∈ r, p.a = 0) (k : ℕ) :
    ∀ p ∈ rows.getD k [], p.a = 0 := by
  rw [List.getD_eq_getElem?_getD]
  cases hx : rows[k]? with
  | none => intro p hp; simp at hp
  | some r => exact hrows r (List.getElem?_mem hx)

lemma Buf.alphaZero_of_rows (b : Buf) (h : ∀ r ∈ b.rows, ∀ p ∈ r, p.a = 0) :
    b.alphaZero := by
  intro i j
  rw [Buf.get]
  by_cases hij : 0 ≤ i ∧ 0 ≤ j
  · rw [if_pos hij]
    exact getD_a_zero _ (rowsGetD_a_zero _ h _) _
  · rw [if_neg hij]; rfl

lemma newBuf_alphaZero (w h : ℕ) : (newBuf w h).alphaZero := by
  apply Buf.alphaZero_of_rows
  intro r hr p hp
  rw [List.eq_of_mem_replicate hr] at hp
  rw [List.eq_of_mem_replicate hp]
  rfl

lemma Buf.ofFn_alphaZero (w h : ℕ) (f : ℤ → ℤ → Pix)
    (hf : ∀ i j, (f i j).a = 0) : (Buf.ofFn w h f).alphaZero := by
  apply Buf.alphaZero_of_rows
  intro r hr p hp
  rw [Buf.ofFn] at hr
  simp only [List.mem_map, List.mem_range] at hr
  obtain ⟨j, -, rfl⟩ := hr
  simp only [List.mem_map, List.mem_range] at hp
  obtain ⟨i, -, rfl⟩ := hp
  exact hf _ _

lemma drawText_alphaZero (env : Env) (b : Buf) (pos : ℤ × ℤ) (text : String)
    (ink : Pix) (sw : ℕ) (hink : ink.a = 0) (hb : b.alphaZero) :
    (drawText env b pos text ink sw).alphaZero := by
  apply Buf.mapIdx_alphaZero _ _ hb
  intro i j p hp
  show maskBlend _ p.a ink.a = 0
  rw [hp, hink, maskBlend_zero]

lemma alphaCompositeOver_src_alphaZero (base src : Buf) (h : src.alphaZero) :
    alphaCompositeOver base src = base := by
  apply Buf.mapIdx_id
  intro i j p
  exact alphaCompPix_src_clear p _ (h i j)

lemma List.foldl_preserves {α β : Type} (P : α → Prop) (g : α → β → α)
    (hstep : ∀ a b, P a → P (g a b)) :
    ∀ (l : List β) (a : α), P a → P (l.foldl g a) := by
  intro l
  induction l with
  | nil => intro a ha; exact ha
  | cons b l ih => intro a ha; exact ih _ (hstep a b ha)

lemma exceptFoldlM_invariant {ε α β : Type} (P : α → Prop)
    (g : α → β → Except ε α)
    (hstep : ∀ a b r, g a b = .ok r → P a → P r) :
    ∀ (l : List β) (a : α) (res : α), P a →
      l.foldlM g a = .ok res → P res := by
  intro l
  induction l with
  | nil =>
    intro a res ha hfold
    rw [List.foldlM_nil] at hfold
    cases hfold
    exact ha
  | cons b l ih =>
    intro a res ha hfold
    rw [List.foldlM_cons] at hfold
    cases hg : g a b with
    | error e => rw [hg] at hfold; exact Except.noConfusion hfold
    | ok a2 =>
      rw [hg] at hfold
      exact ih a2 res (hstep a b a2 hg ha) hfold

lemma exceptFoldlM_ok {ε α β : Type} (g : α → β → α) :
    ∀ (l : List β) (a : α),
      l.foldlM (fun a b => (Except.ok (g a b) : Except ε α)) a =
        .ok (l.foldl g a) := by
  intro l
  induction l with
  | nil => intro a; rfl
  | cons b l ih => intro a; rw [List.foldlM_cons, List.foldl_cons]; exact ih (g a b)

lemma List.foldl_append_flatMap {α β : Type} (f : β → List α) :
    ∀ (l : List β) (acc : List α),
      l.foldl (fun acc y => acc ++ f y) acc = acc ++ l.flatMap f := by
  intro l
  induction l with
  | nil => intro acc; simp
  | cons b l ih => intro acc; simp [List.foldl_cons, ih, List.flatMap_cons]

lemma pyRange_ok (start stop step : ℤ) (h : step ≠ 0) :
    pyRange start stop step = .ok (pyRangeList start stop step) := by
  rw [pyRange, if_neg h]

lemma pyRangeLen_pos_def (start stop step : ℤ) (h : 0 < step) :
    pyRangeLen start stop step = ((stop - start + step - 1) / step).toNat := by
  rw [pyRangeLen, if_pos h]

lemma mem_pyRangeList (start stop step y : ℤ) :
    y ∈ pyRangeList start stop step ↔
      ∃ k : ℕ, k < pyRangeLen start stop step ∧ y = start + step * k := by
  rw [pyRangeList]
  simp only [List.mem_map, List.mem_range]
  constructor
  · rintro ⟨k, hk, rfl⟩; exact ⟨k, hk, rfl⟩
  · rintro ⟨k, hk, rfl⟩; exact ⟨k, hk, rfl⟩

lemma pyRangeList_bounds (start stop step y : ℤ) (hs : 0 < step)
    (hy : y ∈ pyRangeList start stop step) : start ≤ y ∧ y < stop := by
  rw [mem_pyRangeList] at hy
  obtain ⟨k, hk, rfl⟩ := hy
  constructor
  · have : (0 : ℤ) ≤ step * k := mul_nonneg hs.le (by positivity)
    omega
  · rw [pyRangeLen_pos_def _ _ _ hs] at hk
    have hk2 : (k : ℤ) < (stop - start + step - 1) / step := Int.lt_toNat.mp hk
    have hk3 : (k : ℤ) + 1 ≤ (stop - start + step - 1) / step := by omega
    have := (Int.le_ediv_iff_mul_le hs).mp hk3
    nlinarith

lemma pyRangeLen_pos (start stop step : ℤ) (hs : 0 < step) (h : start < stop) :
    0 < pyRangeLen start stop step := by
  rw [pyRangeLen_pos_def _ _ _ hs]
  have h1 : (1 : ℤ) ≤ (stop - start + step - 1) / step :=
    (Int.le_ediv_iff_mul_le hs).mpr (by omega)
  omega

lemma pyRangeList_head (start stop step : ℤ) (hs : 0 < step) (h : start < stop) :
    (pyRangeList start stop step).head? = some start := by
  obtain ⟨n, hn⟩ := Nat.exists_eq_succ_of_ne_zero (pyRangeLen_pos start stop step hs h).ne'
  rw [pyRangeList, hn, List.range_succ_eq_map]
  simp

lemma pyRange_covers (start stop step t : ℤ) (hs : 0 < step)
    (h1 : start ≤ t) (h2 : t < stop) :
    ∃ y ∈ pyRangeList start stop step, y ≤ t ∧ t < y + step := by
  refine ⟨start + step * ((t - start) / step), ?_, ?_, ?_⟩
  · rw [mem_pyRangeList]
    refine ⟨((t - start) / step).toNat, ?_, ?_⟩
    · rw [pyRangeLen_pos_def _ _ _ hs]
      have hq : 0 ≤ (t - start) / step := Int.ediv_nonneg (by omega) hs.le
      have hle : step * ((t - start) / step) ≤ t - start := by
        have := Int.ediv_mul_le (t - start) hs.ne'
        linarith [this]
      have : (t - start) / step + 1 ≤ (stop - start + step - 1) / step :=
        (Int.le_ediv_iff_mul_le hs).mpr (by nlinarith)
      omega
    · rw [Int.toNat_of_nonneg (Int.ediv_nonneg (by omega) hs.le)]
  · have := Int.ediv_mul_le (t - start) hs.ne'
    linarith
  · have := Int.lt_ediv_add_one_mul_self (t - start) hs
    nlinarith

lemma pyRangeLen_eq_ceil (d step : ℤ) (hs : 0 < step) (hd : 0 ≤ d) :
    ((pyRangeLen 0 d step : ℕ) : ℤ) = ⌈(d : ℚ) / (step : ℚ)⌉ := by
  rw [pyRangeLen_pos_def _ _ _ hs]
  have hnn : 0 ≤ (d - 0 + step - 1) / step := Int.ediv_nonneg (by omega) hs.le
  rw [Int.toNat_of_nonneg hnn]
  have h1 : ((d - 0 + step - 1) / step) * step ≤ d + step - 1 := by
    have := Int.ediv_mul_le (d - 0 + step - 1) hs.ne'
    linarith
  have h2 : d + step - 1 < ((d - 0 + step - 1) / step) * step + step := by
    have := Int.lt_ediv_add_one_mul_self (d - 0 + step - 1) hs
    rw [add_mul, one_mul] at this
    linarith
  have hsQ : (0 : ℚ) < (step : ℚ) := by exact_mod_cast hs
  symm
  rw [Int.ceil_eq_iff]
  constructor
  · rw [lt_div_iff₀ hsQ]
    have hZ : (((d - 0 + step - 1) / step : ℤ) - 1) * (step : ℤ) < d := by
      rw [sub_mul, one_mul]
      linarith
    calc ((((d - 0 + step - 1) / step : ℤ) : ℚ) - 1) * (step : ℚ)
        = ((((d - 0 + step - 1) / step - 1) * step : ℤ) : ℚ) := by push_cast; ring
      _ < ((d : ℤ) : ℚ) := by exact_mod_cast hZ
  · rw [div_le_iff₀ hsQ]
    have hZ : d ≤ ((d - 0 + step - 1) / step) * step := by linarith
    exact_mod_cast hZ

lemma flatMap_grid_length {α : Type} (ys xs : List ℤ)
    (f : ℤ → ℤ → α) :
    (ys.flatMap (fun y => xs.map (fun x => f x y))).length =
      ys.length * xs.length := by
  induction ys with
  | nil => simp
  | cons y ys ih => simp [List.flatMap_cons, ih, Nat.succ_mul, Nat.add_comm]

lemma exceptBind_ok {ε α β : Type} (a : α) (f : α → Except ε β) :
    (Except.ok a >>= f : Except ε β) = f a := rfl

lemma exceptPure_eq {ε α : Type} (a : α) :
    (pure a : Except ε α) = Except.ok a := rfl

lemma Buf.mapIdx_width (b : Buf) (f : ℤ → ℤ → Pix → Pix) :
    (b.mapIdx f).width = b.width := rfl

lemma Buf.mapIdx_height (b : Buf) (f : ℤ → ℤ → Pix → Pix) :
    (b.mapIdx f).height = b.height := rfl

lemma drawText_width (env : Env) (b : Buf) (pos : ℤ × ℤ) (text : String)
    (ink : Pix) (sw : ℕ) : (drawText env b pos text ink sw).width = b.width := rfl

lemma drawText_height (env : Env) (b : Buf) (pos : ℤ × ℤ) (text : String)
    (ink : Pix) (sw : ℕ) : (drawText env b pos text ink sw).height = b.height := rfl

lemma paint_shadowed_text_width (env : Env) (base : Buf) (pos : ℤ × ℤ)
    (text : String) (fill : Pix) (sw : ℕ) (off : ℤ × ℤ) (sa sb : ℕ) :
    (paint_shadowed_text env base pos text fill sw off sa sb).width = base.width := by
  unfold paint_shadowed_text
  by_cases hc : sa ≠ 0 ∧ off ≠ ((0 : ℤ), (0 : ℤ))
  · rw [if_pos hc]; rfl
  · rw [if_neg hc]; rfl

lemma paint_shadowed_text_height (env : Env) (base : Buf) (pos : ℤ × ℤ)
    (text : String) (fill : Pix) (sw : ℕ) (off : ℤ × ℤ) (sa sb : ℕ) :
    (paint_shadowed_text env base pos text fill sw off sa sb).height = base.height := by
  unfold paint_shadowed_text
  by_cases hc : sa ≠ 0 ∧ off ≠ ((0 : ℤ), (0 : ℤ))
  · rw [if_pos hc]; rfl
  · rw [if_neg hc]; rfl

lemma paint_gate_offset_zero (env : Env) (b : Buf) (pos : ℤ × ℤ) (text : String)
    (fill : Pix) (sw : ℕ) (sa sb : ℕ) :
    paint_shadowed_text env b pos text fill sw (0, 0) sa sb =
      drawText env b pos text fill sw := by
  unfold paint_shadowed_text
  rw [if_neg]
  rintro ⟨-, hoff⟩
  exact hoff rfl

lemma paint_gate_alpha_zero (env : Env) (b : Buf) (pos : ℤ × ℤ) (text : String)
    (fill : Pix) (sw : ℕ) (off : ℤ × ℤ) (sb : ℕ) :
    paint_shadowed_text env b pos text fill sw off 0 sb =
      drawText env b pos text fill sw := by
  unfold paint_shadowed_text
  rw [if_neg]
  rintro ⟨ha, -⟩
  exact ha rfl

lemma paint_alphaZero (env : Env) (b : Buf) (pos : ℤ × ℤ) (text : String)
    (fill : Pix) (sw : ℕ) (off : ℤ × ℤ) (sb : ℕ) (hfill : fill.a = 0)
    (hb : b.alphaZero) :
    (paint_shadowed_text env b pos text fill sw off 0 sb).alphaZero := by
  rw [paint_gate_alpha_zero]
  exact drawText_alphaZero env b pos text fill sw hfill hb

lemma anchorLoop_ok (a0 b0 sx : ℤ) (hsx : sx ≠ 0) (ys : List ℤ) :
    (ys.foldlM (fun acc yy => do
        let xs ← pyRange a0 b0 sx
        pure (acc ++ xs.map (fun xx => (xx, yy)))) [] :
        Except PyErr (List (ℤ × ℤ))) =
      .ok (ys.flatMap (fun yy => (pyRangeList a0 b0 sx).map (fun xx => (xx, yy)))) := by
  simp only [pyRange_ok a0 b0 sx hsx, exceptBind_ok, exceptPure_eq]
  rw [exceptFoldlM_ok (fun acc yy => acc ++ (pyRangeList a0 b0 sx).map (fun xx => (xx, yy)))]
  rw [List.foldl_append_flatMap]
  rfl

lemma tileAnchors_ok (w h tw th margin : ℤ) (tsx tsy : ℚ)
    (hsx : pyIntMul (tw + margin) tsx ≠ 0) (hsy : pyIntMul (th + margin) tsy ≠ 0) :
    tileAnchors w h tw th margin tsx tsy =
      .ok ((pyRangeList 0 h (pyIntMul (th + margin) tsy)).flatMap
        (fun yy => (pyRangeList 0 w (pyIntMul (tw + margin) tsx)).map
          (fun xx => (xx, yy)))) := by
  simp only [tileAnchors]
  rw [pyRange_ok _ _ _ hsy, exceptBind_ok]
  exact anchorLoop_ok 0 w _ hsx _

lemma diagAnchors_ok (w h tw th : ℤ) (ds : ℚ)
    (hs : pyIntMul (max tw th) ds ≠ 0) :
    diagAnchors w h tw th ds =
      .ok ((pyRangeList (-h) (h * 2) (pyIntMul (max tw th) ds)).flatMap
        (fun yy => (pyRangeList (-w) (w * 2) (pyIntMul (max tw th) ds)).map
          (fun xx => (xx, yy)))) := by
  simp only [diagAnchors]
  rw [pyRange_ok _ _ _ hs, exceptBind_ok]
  exact anchorLoop_ok (-w) (w * 2) _ hs _

lemma flatMap_grid_head {α : Type} (ys xs : List ℤ) (f : ℤ → ℤ → α)
    (y0 x0 : ℤ) (hy : ys.head? = some y0) (hx : xs.head? = some x0) :
    (ys.flatMap (fun y => xs.map (fun x => f x y))).head? = some (f x0 y0) := by
  cases ys with
  | nil => simp at hy
  | cons y ys =>
    cases xs with
    | nil => simp at hx
    | cons x xs =>
      simp only [List.head?_cons, Option.some.injEq] at hy hx
      subst hy; subst hx
      simp [List.flatMap_cons]

lemma flatMap_grid_mem {α : Type} (ys xs : List ℤ) (f : ℤ → ℤ → α) (p : α)
    (hp : p ∈ ys.flatMap (fun y => xs.map (fun x => f x y))) :
    ∃ x ∈ xs, ∃ y ∈ ys, p = f x y := by
  rw [List.mem_flatMap] at hp
  obtain ⟨y, hy, hp⟩ := hp
  rw [List.mem_map] at hp
  obtain ⟨x, hx, rfl⟩ := hp
  exact ⟨x, hx, y, hy, rfl⟩

lemma add_watermark_ok_elim (env : Env) (img : Buf) (text mode : String)
    (opacity : ℕ) (margin : ℤ) (sw : ℕ) (off : ℤ × ℤ) (sa sb : ℕ)
    (ts : ℚ × ℚ) (ds : ℚ) (pr : Buf × Buf)
    (hok : add_watermark_to_image env img text mode opacity margin sw off sa sb ts ds
      = .ok pr) :
    ∃ ov, wmOverlay env img text mode opacity margin sw off sa sb ts ds = .ok ov ∧
      img.width = ov.width ∧ img.height = ov.height ∧
      pr = (img, alphaCompositeOver (convertRGBA img) ov) := by
  unfold add_watermark_to_image at hok
  cases hov : wmOverlay env img text mode opacity margin sw off sa sb ts ds with
  | error e => rw [hov] at hok; exact Except.noConfusion hok
  | ok ov =>
    rw [hov, exceptBind_ok] at hok
    unfold imageAlphaComposite at hok
    by_cases hsz : (convertRGBA img).width = ov.width ∧ (convertRGBA img).height = ov.height
    · rw [if_pos hsz, exceptBind_ok, exceptPure_eq] at hok
      cases hok
      exact ⟨ov, rfl, hsz.1, hsz.2, rfl⟩
    · rw [if_neg hsz] at hok
      exact Except.noConfusion hok

lemma wmOverlay_alphaZero (env : Env)
    (henv : ∀ b : Buf, b.alphaZero → (rotate45 env b).alphaZero)
    (img : Buf) (text mode : String) (margin : ℤ) (sw : ℕ) (off : ℤ × ℤ)
    (sb : ℕ) (ts : ℚ × ℚ) (ds : ℚ) (ov : Buf)
    (hok : wmOverlay env img text mode 0 margin sw off 0 sb ts ds = .ok ov) :
    ov.alphaZero := by
  have hfill : (fillOf 0).a = 0 := rfl
  simp only [wmOverlay] at hok
  split_ifs at hok
  · cases hok
    exact paint_alphaZero _ _ _ _ _ _ _ _ hfill (newBuf_alphaZero _ _)
  · cases hok
    exact paint_alphaZero _ _ _ _ _ _ _ _ hfill (newBuf_alphaZero _ _)
  · cases hys : pyRange 0 (img.height : ℤ)
        (pyIntMul ((env.textbbox_rb text).2 + margin) ts.2) with
    | error e => rw [hys] at hok; exact Except.noConfusion hok
    | ok ys =>
      rw [hys, exceptBind_ok] at hok
      refine exceptFoldlM_invariant Buf.alphaZero _ ?_ ys _ ov (newBuf_alphaZero _ _) hok
      intro a yy r hg ha
      cases hxs : pyRange 0 (img.width : ℤ)
          (pyIntMul ((env.textbbox_rb text).1 + margin) ts.1) with
      | error e => rw [hxs] at hg; exact Except.noConfusion hg
      | ok xs =>
        rw [hxs, exceptBind_ok, exceptPure_eq] at hg
        cases hg
        refine List.foldl_preserves Buf.alphaZero _ ?_ xs a ha
        intro b x hb
        exact paint_alphaZero _ _ _ _ _ _ _ _ hfill hb
  · cases hys : pyRange (-(img.height : ℤ)) ((img.height : ℤ) * 2)
        (pyIntMul (max (env.textbbox_rb text).1 (env.textbbox_rb text).2) ds) with
    | error e => rw [hys] at hok; exact Except.noConfusion hok
    | ok ys =>
      rw [hys, exceptBind_ok] at hok
      cases htl : ys.foldlM (fun tl yy => do
          let xs ← pyRange (-(img.width : ℤ)) ((img.width : ℤ) * 2)
            (pyIntMul (max (env.textbbox_rb text).1 (env.textbbox_rb text).2) ds)
          pure (xs.foldl (fun tl2 xx =>
            paint_shadowed_text env tl2 (xx, yy) text (fillOf 0) sw off 0 sb) tl))
          (newBuf img.width img.height) with
      | error e => rw [htl] at hok; exact Except.noConfusion hok
      | ok tl =>
        rw [htl, exceptBind_ok] at hok
        have htlz : tl.alphaZero := by
          refine exceptFoldlM_invariant Buf.alphaZero _ ?_ ys _ tl (newBuf_alphaZero _ _) htl
          intro a yy r hg ha
          cases hxs : pyRange (-(img.width : ℤ)) ((img.width : ℤ) * 2)
              (pyIntMul (max (env.textbbox_rb text).1 (env.textbbox_rb text).2) ds) with
          | error e => rw [hxs] at hg; exact Except.noConfusion hg
          | ok xs =>
            rw [hxs, exceptBind_ok, exceptPure_eq] at hg
            cases hg
            refine List.foldl_preserves Buf.alphaZero _ ?_ xs a ha
            intro b x hb
            exact paint_alphaZero _ _ _ _ _ _ _ _ hfill hb
        unfold imageAlphaComposite at hok
        by_cases hsz : (newBuf img.width img.height).width = (rotate45 env tl).width ∧
            (newBuf img.width img.height).height = (rotate45 env tl).height
        · rw [if_pos hsz] at hok
          cases hok
          rw [alphaCompositeOver_src_alphaZero _ _ (henv tl htlz)]
          exact newBuf_alphaZero _ _
        · rw [if_neg hsz] at hok
          exact Except.noConfusion hok

lemma wmOverlay_shadow_gate (env : Env) (img : Buf) (text mode : String)
    (opacity : ℕ) (margin : ℤ) (sw : ℕ) (sa sb : ℕ) (ts : ℚ × ℚ) (ds : ℚ) :
    wmOverlay env img text mode opacity margin sw (0, 0) sa sb ts ds =
      wmOverlay env img text mode opacity margin sw (0, 0) 0 sb ts ds := by
  simp only [wmOverlay, paint_gate_offset_zero]

lemma pyRangeList_length (start stop step : ℤ) :
    (pyRangeList start stop step).length = pyRangeLen start stop step := by
  simp [pyRangeList]

/-- C10: the watermark fill color is fixed at white `(255, 255, 255)`
with only its alpha set by the configured opacity (line 87), and the
shadow color is fixed at black `(0, 0, 0)` with only its alpha set by
the configured shadow alpha (line 43); no parameter changes either RGB
color. -/
theorem watermark_colors_fixed :
    (∀ opacity : ℕ, fillOf opacity = ⟨255, 255, 255, opacity⟩) ∧
    (∀ sa : ℕ, shadowFillOf sa = ⟨0, 0, 0, sa⟩) ∧
    (∀ o o' : ℕ, (fillOf o).r = (fillOf o').r ∧ (fillOf o).g = (fillOf o').g ∧
      (fillOf o).b = (fillOf o').b) ∧
    (∀ s s' : ℕ, (shadowFillOf s).r = (shadowFillOf s').r ∧
      (shadowFillOf s).g = (shadowFillOf s').g ∧
      (shadowFillOf s).b = (shadowFillOf s').b) :=
  ⟨fun _ => rfl, fun _ => rfl, fun _ _ => ⟨rfl, rfl, rfl⟩,
    fun _ _ => ⟨rfl, rfl, rfl⟩⟩

/-- C7: a shadow offset of exactly `(0, 0)` gates the entire shadow
pass (line 40), so with offset `(0, 0)` the output with any non-zero
shadow alpha equals the output with shadow alpha 0, all other
parameters equal. -/
theorem shadow_offset_zero_shortcut (env : Env) (img : Buf)
    (text mode : String) (opacity : ℕ) (margin : ℤ) (sw : ℕ) (sa sb : ℕ)
    (ts : ℚ × ℚ) (ds : ℚ) :
    add_watermark_to_image env img text mode opacity margin sw (0, 0) sa sb ts ds =
      add_watermark_to_image env img text mode opacity margin sw (0, 0) 0 sb ts ds := by
  unfold add_watermark_to_image
  rw [wmOverlay_shadow_gate]

/-- C9: a mode string that is none of the four supported placement
modes makes `add_watermark_to_image` raise
`ValueError(f"unknown mode: {mode}")` — the error carries the
unsupported mode string — and no output image is produced. -/
theorem unknown_mode_error (env : Env) (img : Buf) (text mode : String)
    (opacity : ℕ) (margin : ℤ) (sw : ℕ) (off : ℤ × ℤ) (sa sb : ℕ)
    (ts : ℚ × ℚ) (ds : ℚ)
    (h1 : mode ≠ "bottom-right") (h2 : mode ≠ "center") (h3 : mode ≠ "tile")
    (h4 : mode ≠ "diagonal-tile") :
    add_watermark_to_image env img text mode opacity margin sw off sa sb ts ds =
      .error (PyErr.valueErrorUnknownMode mode) := by
  simp only [add_watermark_to_image, wmOverlay]
  rw [if_neg h1, if_neg h2, if_neg h3, if_neg h4]
  rfl

/-- Witness for C9 at the concrete unsupported mode string "spiral". -/
theorem unknown_mode_error_witness :
    add_watermark_to_image envZero img2 "wm" "spiral" 128 0 0 (2, 2) 180 0
      (1, 1) (mkRat 3 2) = .error (PyErr.valueErrorUnknownMode "spiral") :=
  unknown_mode_error envZero img2 "wm" "spiral" 128 0 0 (2, 2) 180 0
    (1, 1) (mkRat 3 2) (by decide) (by decide) (by decide) (by decide)

/-- C2 does not hold of the code: with an empty text box (tw = th = 0)
and margin 0 the tile pixel step is 0 and the code raises Python's
builtin `ValueError: range() arg 3 must not be zero` from `range`
itself — there is no `DegenerateStep` error anywhere in the program —
and the same happens in diagonal-tile mode; with a negative computed
step (margin = -5) the loop bound `range(0, h, -5)` is empty and the
call silently succeeds, producing the unwatermarked image instead of
raising anything. -/
theorem degenerate_step_behavior :
    add_watermark_to_image envZero img2 "wm" "tile" 128 0 0 (2, 2) 180 0
      (1, 1) (mkRat 3 2) = .error PyErr.valueErrorZeroStep ∧
    add_watermark_to_image envZero img2 "wm" "diagonal-tile" 128 0 0 (2, 2)
      180 0 (1, 1) (mkRat 3 2) = .error PyErr.valueErrorZeroStep ∧
    add_watermark_to_image envZero img2 "wm" "tile" 128 (-5) 0 (2, 2) 180 0
      (1, 1) (mkRat 3 2) = .ok (img2, img2) :=
  ⟨by decide, by decide, by decide⟩

lemma wmOverlay_bottomRight (env : Env) (img : Buf) (text : String)
    (opacity : ℕ) (margin : ℤ) (sw : ℕ) (off : ℤ × ℤ) (sa sb : ℕ)
    (ts : ℚ × ℚ) (ds : ℚ) :
    wmOverlay env img text "bottom-right" opacity margin sw off sa sb ts ds =
      Except.ok (paint_shadowed_text env (newBuf img.width img.height)
        (bottomRightAnchor (img.width : ℤ) (img.height : ℤ)
          (env.textbbox_rb text).1 (env.textbbox_rb text).2 margin)
        text (fillOf opacity) sw off sa sb) := rfl

/-- C4: in corner (bottom-right) mode the single anchor is
`(W - tw - margin, H - th - margin)` (line 103); coordinates may be
negative and no clamping is performed; for tw=50, th=20, margin=10,
W=200, H=100 the anchor is (140, 70); and the composite output is the
source image with exactly one glyph instance painted at that anchor. -/
theorem corner_mode_single_anchor :
    (∀ w h tw th margin : ℤ,
      bottomRightAnchor w h tw th margin = (w - tw - margin, h - th - margin)) ∧
    bottomRightAnchor 200 100 50 20 10 = (140, 70) ∧
    bottomRightAnchor 10 10 50 20 10 = (-50, -20) ∧
    ∀ (env : Env) (img : Buf) (text : String) (opacity : ℕ) (margin : ℤ)
      (sw : ℕ) (off : ℤ × ℤ) (sa sb : ℕ) (ts : ℚ × ℚ) (ds : ℚ),
      add_watermark_to_image env img text "bottom-right" opacity margin sw off
          sa sb ts ds =
        .ok (img, alphaCompositeOver (convertRGBA img)
          (paint_shadowed_text env (newBuf img.width img.height)
            (bottomRightAnchor (img.width : ℤ) (img.height : ℤ)
              (env.textbbox_rb text).1 (env.textbbox_rb text).2 margin)
            text (fillOf opacity) sw off sa sb)) := by
  refine ⟨fun w h tw th margin => rfl, by decide, by decide, ?_⟩
  intro env img text opacity margin sw off sa sb ts ds
  unfold add_watermark_to_image
  rw [wmOverlay_bottomRight, exceptBind_ok]
  unfold imageAlphaComposite
  rw [if_pos ⟨(paint_shadowed_text_width env (newBuf img.width img.height)
      (bottomRightAnchor (img.width : ℤ) (img.height : ℤ)
        (env.textbbox_rb text).1 (env.textbbox_rb text).2 margin)
      text (fillOf opacity) sw off sa sb).symm,
    (paint_shadowed_text_height env (newBuf img.width img.height)
      (bottomRightAnchor (img.width : ℤ) (img.height : ℤ)
        (env.textbbox_rb text).1 (env.textbbox_rb text).2 margin)
      text (fillOf opacity) sw off sa sb).symm⟩]
  rw [exceptBind_ok, exceptPure_eq]

/-- C5: whenever `add_watermark_to_image` returns an image, that image
has exactly the width and height of the input image (the final merge at
line 136 composites onto a converted copy of the input, and Pillow's
`alpha_composite` demands and preserves the common size). -/
theorem composite_preserves_size (env : Env) (img : Buf) (text mode : String)
    (opacity : ℕ) (margin : ℤ) (sw : ℕ) (off : ℤ × ℤ) (sa sb : ℕ)
    (ts : ℚ × ℚ) (ds : ℚ) (pr : Buf × Buf)
    (hok : add_watermark_to_image env img text mode opacity margin sw off sa sb
      ts ds = .ok pr) :
    pr.2.width = img.width ∧ pr.2.height = img.height := by
  obtain ⟨ov, -, -, -, rfl⟩ :=
    add_watermark_ok_elim env img text mode opacity margin sw off sa sb ts ds pr hok
  exact ⟨rfl, rfl⟩

/-- Witness for C5: a successful center-mode run on the concrete
2×2 image produces a 2×2 result. -/
theorem composite_preserves_size_witness :
    ((img2, img2) : Buf × Buf).2.width = img2.width ∧
      ((img2, img2) : Buf × Buf).2.height = img2.height :=
  composite_preserves_size envZero img2 "wm" "center" 128 0 0 (2, 2) 180 0
    (1, 1) (mkRat 3 2) (img2, img2) (by decide)

/-- C6: with fill opacity 0 and shadow alpha 0, a successful call
returns an output pixel-identical to the alpha-converted input: the
shadow pass is skipped, every drawn pixel keeps alpha 0, and Pillow's
alpha compositing copies the destination wherever the overlay alpha is
0.  The hypothesis on the environment states the true fact about
Pillow's `rotate` that resampling a fully transparent layer yields a
fully transparent layer. -/
theorem zero_opacity_identity (env : Env)
    (henv : ∀ b : Buf, b.alphaZero → (rotate45 env b).alphaZero)
    (img : Buf) (text mode : String) (margin : ℤ) (sw : ℕ) (off : ℤ × ℤ)
    (sb : ℕ) (ts : ℚ × ℚ) (ds : ℚ) (pr : Buf × Buf)
    (hok : add_watermark_to_image env img text mode 0 margin sw off 0 sb ts ds
      = .ok pr) :
    pr.2 = convertRGBA img := by
  obtain ⟨ov, hov, -, -, rfl⟩ :=
    add_watermark_ok_elim env img text mode 0 margin sw off 0 sb ts ds pr hok
  have hz := wmOverlay_alphaZero env henv img text mode margin sw off sb ts ds ov hov
  exact alphaCompositeOver_src_alphaZero _ _ hz

/-- Witness for C6: a concrete zero-opacity zero-shadow tile run on the
2×2 image returns the input unchanged. -/
theorem zero_opacity_identity_witness :
    ((img2, img2) : Buf × Buf).2 = convertRGBA img2 :=
  zero_opacity_identity envZero
    (fun b _ => Buf.ofFn_alphaZero b.width b.height (envZero.rotSample b)
      (fun _ _ => rfl))
    img2 "wm" "tile" 5 0 (2, 2) 0 (1, 1) (mkRat 3 2) (img2, img2) (by decide)

/-- C8: a successful call never mutates the caller's source buffer —
the model threads the source buffer through every modelled statement
and returns it as the first component, unchanged — and the result is a
newly produced buffer, built by compositing some overlay over a
converted copy of the source. -/
theorem source_not_mutated (env : Env) (img : Buf) (text mode : String)
    (opacity : ℕ) (margin : ℤ) (sw : ℕ) (off : ℤ × ℤ) (sa sb : ℕ)
    (ts : ℚ × ℚ) (ds : ℚ) (pr : Buf × Buf)
    (hok : add_watermark_to_image env img text mode opacity margin sw off sa sb
      ts ds = .ok pr) :
    pr.1 = img ∧ ∃ ov, pr.2 = alphaCompositeOver (convertRGBA img) ov := by
  obtain ⟨ov, -, -, -, rfl⟩ :=
    add_watermark_ok_elim env img text mode opacity margin sw off sa sb ts ds pr hok
  exact ⟨rfl, ov, rfl⟩

/-- Witness for C8: the concrete bottom-right run returns the source
buffer unchanged in the first component. -/
theorem source_not_mutated_witness :
    ((img2, img2) : Buf × Buf).1 = img2 ∧
      ∃ ov, ((img2, img2) : Buf × Buf).2 = alphaCompositeOver (convertRGBA img2) ov :=
  source_not_mutated envZero img2 "wm" "bottom-right" 128 0 0 (2, 2) 180 0
    (1, 1) (mkRat 3 2) (img2, img2) (by decide)

lemma rot45_corner_uncovered (s : ℝ) (hs : 0 < s) :
    ¬ rot45Covered s s (0, 0) := by
  intro hcov
  unfold rot45Covered at hcov
  obtain ⟨p, hsamp, hx0, -, -, -⟩ := hcov
  unfold rot45SamplesAt at hsamp
  obtain ⟨hp1, -⟩ := hsamp
  have h2 : (1 : ℝ) < Real.sqrt 2 := by
    nlinarith [Real.sq_sqrt (show (0:ℝ) ≤ 2 by norm_num), Real.sqrt_nonneg 2]
  rw [hp1] at hx0
  norm_num at hx0
  nlinarith [hx0, h2, hs]

/-- C1 does not hold as stated: the tile steps use Python `int()`
truncation (line 109: `int((tw + margin) * tile_step[0])`), not
`round(...)`.  With tw = th = 1, margin = 0, tileStepX = 3/2,
tileStepY = 1 on a 2×1 canvas the code's step is `int(1.5) = 1` and it
generates the two anchors (0,0), (1,0), while the spec's
`round(1.5) = 2` grid would contain only (0,0); the claimed count
`ceil(H/sy) * ceil(W/sx)` computed with the rounded steps is 1 ≠ 2. -/
theorem tile_round_counterexample :
    tileAnchors 2 1 1 1 0 (mkRat 3 2) 1 = .ok [(0, 0), (1, 0)] ∧
    pyIntMul (1 + 0) (mkRat 3 2) = 1 ∧
    pyRoundMul (1 + 0) (mkRat 3 2) = 2 ∧
    specTileAnchors 2 1 1 1 0 (mkRat 3 2) 1 = .ok [(0, 0)] ∧
    tileAnchors 2 1 1 1 0 (mkRat 3 2) 1 ≠ specTileAnchors 2 1 1 1 0 (mkRat 3 2) 1 ∧
    (((2 : ℕ) : ℤ) ≠ ⌈(1 : ℚ) / (1 : ℚ)⌉ * ⌈(2 : ℚ) / (2 : ℚ)⌉) := by
  refine ⟨by decide, by decide, by decide, by decide, by decide, ?_⟩
  norm_num

/-- C1 (amended): with the steps as the code computes them —
`sx = int((tw + margin) * tileStepX)` and
`sy = int((th + margin) * tileStepY)`, truncation instead of the
spec's `round` — and provided both pixel steps are positive, the tile
anchors form the regular grid starting at (0,0) generated while
y < H and, per row, x < W, and the anchor count is
`ceil(H/sy) * ceil(W/sx)`. -/
theorem tile_grid_amended (w h tw th margin : ℤ) (tsx tsy : ℚ) (sx sy : ℤ)
    (hsxdef : sx = pyIntMul (tw + margin) tsx)
    (hsydef : sy = pyIntMul (th + margin) tsy)
    (hsx : 0 < sx) (hsy : 0 < sy) (hw : 0 < w) (hh : 0 < h) :
    ∃ L, tileAnchors w h tw th margin tsx tsy = .ok L ∧
      L = (pyRangeList 0 h sy).flatMap
        (fun yy => (pyRangeList 0 w sx).map (fun xx => (xx, yy))) ∧
      L.head? = some (0, 0) ∧
      ((L.length : ℕ) : ℤ) = ⌈(h : ℚ) / (sy : ℚ)⌉ * ⌈(w : ℚ) / (sx : ℚ)⌉ ∧
      ∀ p ∈ L, 0 ≤ p.1 ∧ p.1 < w ∧ 0 ≤ p.2 ∧ p.2 < h ∧
        (∃ i : ℕ, p.1 = sx * i) ∧ (∃ j : ℕ, p.2 = sy * j) := by
  subst hsxdef
  subst hsydef
  refine ⟨_, tileAnchors_ok w h tw th margin tsx tsy hsx.ne' hsy.ne', rfl,
    ?_, ?_, ?_⟩
  · exact flatMap_grid_head _ _ _ 0 0 (pyRangeList_head 0 h _ hsy hh)
      (pyRangeList_head 0 w _ hsx hw)
  · rw [flatMap_grid_length, pyRangeList_length, pyRangeList_length]
    push_cast
    rw [pyRangeLen_eq_ceil h _ hsy hh.le, pyRangeLen_eq_ceil w _ hsx hw.le]
  · intro p hp
    obtain ⟨x, hx, y, hy, rfl⟩ := flatMap_grid_mem _ _ _ p hp
    obtain ⟨hx0, hxw⟩ := pyRangeList_bounds 0 w _ x hsx hx
    obtain ⟨hy0, hyh⟩ := pyRangeList_bounds 0 h _ y hsy hy
    rw [mem_pyRangeList] at hx hy
    obtain ⟨i, -, rfl⟩ := hx
    obtain ⟨j, -, rfl⟩ := hy
    exact ⟨hx0, hxw, hy0, hyh, ⟨i, by ring⟩, ⟨j, by ring⟩⟩

/-- Witness for the amended C1 at w = h = 2, tw = th = 1, margin = 0,
unit step factors (both pixel steps are 1). -/
theorem tile_grid_amended_witness :
    ∃ L, tileAnchors 2 2 1 1 0 1 1 = .ok L ∧
      L = (pyRangeList 0 2 1).flatMap
        (fun yy => (pyRangeList 0 2 1).map (fun xx => (xx, yy))) ∧
      L.head? = some (0, 0) ∧
      ((L.length : ℕ) : ℤ) = ⌈((2 : ℤ) : ℚ) / ((1 : ℤ) : ℚ)⌉ *
        ⌈((2 : ℤ) : ℚ) / ((1 : ℤ) : ℚ)⌉ ∧
      ∀ p ∈ L, 0 ≤ p.1 ∧ p.1 < 2 ∧ 0 ≤ p.2 ∧ p.2 < 2 ∧
        (∃ i : ℕ, p.1 = 1 * i) ∧ (∃ j : ℕ, p.2 = 1 * j) :=
  tile_grid_amended 2 2 1 1 0 1 1 1 1 (by decide) (by decide) (by decide)
    (by decide) (by decide) (by decide)

/-- C3 does not hold as stated: the diagonal working layer is allocated
at exactly the image's size (line 116), and rotating it 45° about its
center (line 131, `expand=False`) leaves the canvas corners sampling
from outside the layer: on a 100×100 image the output corner (0,0) is
not covered by any layer content, so the visible canvas has gaps at the
corners. -/
theorem diag_rotation_gap_counterexample :
    (newBuf 100 100).width = 100 ∧ (newBuf 100 100).height = 100 ∧
    ¬ rot45Covered 100 100 (0, 0) :=
  ⟨rfl, rfl, rot45_corner_uncovered 100 (by norm_num)⟩

/-- C3 (amended): for a positive diagonal step the anchors do start at
(-W, -H) and cover the range [-H, 2H) vertically and [-W, 2W)
horizontally with no gap wider than the step; but the working layer is
sized identically to the image (glyphs outside it are clipped when
drawn), the 45° rotation does not resize the layer, and for every
square layer the canvas corner (0,0) samples from outside the layer
after the rotation, so the visible canvas is NOT fully covered at the
corners. -/
theorem diag_layer_amended (w h tw th : ℤ) (ds : ℚ) (step : ℤ)
    (hstepdef : step = pyIntMul (max tw th) ds) (hstep : 0 < step)
    (hw : 0 < w) (hh : 0 < h) :
    (∃ L, diagAnchors w h tw th ds = .ok L ∧
      L.head? = some (-w, -h) ∧
      (∀ p ∈ L, -w ≤ p.1 ∧ p.1 < 2 * w ∧ -h ≤ p.2 ∧ p.2 < 2 * h) ∧
      (∀ t : ℤ, -h ≤ t → t < 2 * h →
        ∃ y ∈ pyRangeList (-h) (h * 2) step, y ≤ t ∧ t < y + step) ∧
      (∀ t : ℤ, -w ≤ t → t < 2 * w →
        ∃ x ∈ pyRangeList (-w) (w * 2) step, x ≤ t ∧ t < x + step)) ∧
    (∀ wp hp : ℕ, (newBuf wp hp).width = wp ∧ (newBuf wp hp).height = hp) ∧
    (∀ (env : Env) (b : Buf),
      (rotate45 env b).width = b.width ∧ (rotate45 env b).height = b.height) ∧
    (∀ s : ℝ, 0 < s → ¬ rot45Covered s s (0, 0)) := by
  subst hstepdef
  refine ⟨⟨_, diagAnchors_ok w h tw th ds hstep.ne', ?_, ?_, ?_, ?_⟩,
    fun wp hp => ⟨rfl, rfl⟩, fun env b => ⟨rfl, rfl⟩,
    fun s hs => rot45_corner_uncovered s hs⟩
  · exact flatMap_grid_head _ _ _ (-h) (-w)
      (pyRangeList_head (-h) (h * 2) _ hstep (by omega))
      (pyRangeList_head (-w) (w * 2) _ hstep (by omega))
  · intro p hp
    obtain ⟨x, hx, y, hy, rfl⟩ := flatMap_grid_mem _ _ _ p hp
    obtain ⟨hx0, hxw⟩ := pyRangeList_bounds (-w) (w * 2) _ x hstep hx
    obtain ⟨hy0, hyh⟩ := pyRangeList_bounds (-h) (h * 2) _ y hstep hy
    exact ⟨hx0, by omega, hy0, by omega⟩
  · intro t ht1 ht2
    exact pyRange_covers (-h) (h * 2) _ t hstep ht1 (by omega)
  · intro t ht1 ht2
    exact pyRange_covers (-w) (w * 2) _ t hstep ht1 (by omega)

/-- Witness for the amended C3 at a 1×1 image with tw = th = 1 and unit
diagonal step factor (pixel step 1), and square side 1 for the
geometric part. -/
theorem diag_layer_amended_witness :
    (∃ L, diagAnchors 1 1 1 1 1 = .ok L ∧
      L.head? = some (-1, -1) ∧
      (∀ p ∈ L, -1 ≤ p.1 ∧ p.1 < 2 * 1 ∧ -1 ≤ p.2 ∧ p.2 < 2 * 1) ∧
      (∀ t : ℤ, -1 ≤ t → t < 2 * 1 →
        ∃ y ∈ pyRangeList (-1) (1 * 2) 1, y ≤ t ∧ t < y + 1) ∧
      (∀ t : ℤ, -1 ≤ t → t < 2 * 1 →
        ∃ x ∈ pyRangeList (-1) (1 * 2) 1, x ≤ t ∧ t < x + 1)) ∧
    (∀ wp hp : ℕ, (newBuf wp hp).width = wp ∧ (newBuf wp hp).height = hp) ∧
    (∀ (env : Env) (b : Buf),
      (rotate45 env b).width = b.width ∧ (rotate45 env b).height = b.height) ∧
    (∀ s : ℝ, 0 < s → ¬ rot45Covered s s (0, 0)) :=
  diag_layer_amended 1 1 1 1 1 1 (by decide) (by decide) (by decide) (by decide)
